import Mathlib

/-!
Verification of the codelab-section stripper
(`tools/process-codelab-source-file.py`).

The program reads a source file line by line, drops every line strictly
between a line containing the start marker `"// CODELAB: "` and the next
line containing the end marker `"// CODELAB SECTION END"` (the end-marker
line is dropped too, the start-marker line is kept), and writes the kept
lines back to the same file.

The embedding below represents the file as a `List String` of lines
(terminators included in each line, as Python's file iteration yields them)
and the scan loop as a recursive function over that list, with the `discard`
flag passed explicitly.
-/

namespace Codelab

/-- `leadMatch pat s` is true when `pat` occurs at the very front of `s`. -/
def leadMatch : List Char → List Char → Bool
  | [], _ => true
  | _ :: _, [] => false
  | p :: ps, c :: cs => p == c && leadMatch ps cs

/-- `containsSub pat s` is true when `pat` occurs as a contiguous run
somewhere in `s`.  This is Python's `pat in s` substring test. -/
def containsSub : List Char → List Char → Bool
  | pat, [] => pat.isEmpty
  | pat, c :: cs => leadMatch pat (c :: cs) || containsSub pat cs

/-- Substring containment on strings: Python's `pat in line`. -/
def strContains (pat line : String) : Bool :=
  containsSub pat.data line.data

/-- The start marker, `codelabStartPattern` in the source. -/
def codelabStartPattern : String := "// CODELAB: "

/-- The end marker, `codelabEndPattern` in the source. -/
def codelabEndPattern : String := "// CODELAB SECTION END"

/-- `startIn line`: the line contains the start marker
(`codelabStartPattern in line` in the source). -/
def startIn (line : String) : Bool := strContains codelabStartPattern line

/-- `endIn line`: the line contains the end marker
(`codelabEndPattern in line` in the source). -/
def endIn (line : String) : Bool := strContains codelabEndPattern line

/-- The main scan loop of the source, lines 34-42.  The first argument is
the `discard` flag (initially `False` in the source); the result is the
`lines` list the loop builds, i.e. the kept lines that get written back.

```
    for line in infile:
        if discard:
          if codelabEndPattern in line:
            discard = False
        else:
          lines.append(line)
          if codelabStartPattern in line:
                discard = True
```
-/
def processLines : Bool → List String → List String
  | _, [] => []
  | true, line :: rest =>
      if endIn line then processLines false rest else processLines true rest
  | false, line :: rest =>
      line :: (if startIn line then processLines true rest
               else processLines false rest)

/-- The whole transformation performed on the file content: scan starting
with `discard = False`; the kept lines are written back verbatim, so the
output line sequence is exactly `processLines false input`. -/
def filter (input : List String) : List String :=
  processLines false input

/-- The value of the `discard` flag after the loop has consumed the given
lines, starting from the given flag value.  `true` means DISCARDING,
`false` means KEEPING. -/
def stateAfter : Bool → List String → Bool
  | b, [] => b
  | true, line :: rest =>
      if endIn line then stateAfter false rest else stateAfter true rest
  | false, line :: rest =>
      if startIn line then stateAfter true rest else stateAfter false rest

/-- Well-formedness of an input file, as the spec words it: every line
containing the start marker is eventually followed by a line containing
the end marker before end of file. -/
def wellFormedB : List String → Bool
  | [] => true
  | line :: rest =>
      (!(startIn line) || rest.any (fun x => endIn x)) && wellFormedB rest

/-- `dropToEnd ls` is the suffix of `ls` that strictly follows its first
end-marker line (all of the dropped lines are the strictly-between lines
and the matching end-marker line of the spec), or `[]` when no line of
`ls` contains the end marker. -/
def dropToEnd : List String → List String
  | [] => []
  | line :: rest => if endIn line then rest else dropToEnd rest

/-- A second definition, written from the spec's words rather than from
the code, for the refinement claim: the output contains every original
line except the lines strictly between each region-opening start-marker
line and its matching end-marker line (the first subsequent line
containing the end marker) and except that matching end-marker line
itself; the region-opening start-marker line is retained. -/
def specFilter : List String → List String
  | [] => []
  | line :: rest =>
      if startIn line then line :: specFilter (dropToEnd rest)
      else line :: specFilter rest
termination_by ls => ls.length
decreasing_by
  · have h : ∀ xs : List String, (dropToEnd xs).length ≤ xs.length := by
      intro xs
      induction xs with
      | nil => simp [dropToEnd]
      | cons y ys ih =>
          simp only [dropToEnd]
          split
          · simp
          · exact Nat.le_succ_of_le ih
    have := h rest
    simp only [List.length_cons]
    omega
  · simp only [List.length_cons]
    omega

/-- The per-line classification performed by the scan loop: one Bool per
input line, `true` when the line is kept (appended to `lines`), `false`
when it is discarded.  Mirrors `processLines` branch for branch. -/
def classify : Bool → List String → List Bool
  | _, [] => []
  | true, line :: rest =>
      if endIn line then false :: classify false rest
      else false :: classify true rest
  | false, line :: rest =>
      true :: (if startIn line then classify true rest
               else classify false rest)

/-- Select from a list the elements whose classification flag is `true`. -/
def selectBy : List String → List Bool → List String
  | [], _ => []
  | _ :: _, [] => []
  | l :: ls, b :: bs =>
      if b then l :: selectBy ls bs else selectBy ls bs

/-- Outcome of one run of the command-line tool, as far as the claims
describe it.  `usage` models Python's `sys.exit(message)` on the missing
argument check (lines 23-24 of the source): the message is printed to the
diagnostic stream (stderr) and the process exits with the non-zero status
1; no file is opened, read or written on this path.  `process` models the
normal path: the file named by `argv[1]` is read and then overwritten
with its filtered lines. -/
inductive RunOutcome where
  | usage (stderrMsg : String) (exitCode : Nat)
  | process (path : String)
deriving DecidableEq

/-- The entry-point logic of the source (lines 23-26):
`if len(sys.argv) < 2: sys.exit("Error: ...")` and otherwise
`file = sys.argv[1]` followed by the read/filter/write of that file. -/
def run (argv : List String) : RunOutcome :=
  if argv.length < 2 then
    RunOutcome.usage "Error: Please specify the name of the file to process." 1
  else
    RunOutcome.process (argv.getD 1 "")

/-- The five-line example file used by the spec. -/
def exampleLines : List String :=
  ["A\n", "// CODELAB: B\n", "secret\n", "// CODELAB SECTION END\n", "C\n"]

/-- A well-formed file whose second line is a start-marker line nested
inside the discarded region opened by the first line. -/
def nestedLines : List String :=
  ["// CODELAB: a\n", "// CODELAB: b\n", "// CODELAB SECTION END\n"]

/-- A single line containing both the start marker and the end marker. -/
def dualMarkerLine : String := "// CODELAB: x // CODELAB SECTION END\n"

/- ------------------------------------------------------------------ -/
/- Helper lemmas about the scan loop.                                  -/
/- ------------------------------------------------------------------ -/

theorem dropToEnd_length_le (ls : List String) :
    (dropToEnd ls).length ≤ ls.length := by
  induction ls with
  | nil => simp [dropToEnd]
  | cons l rest ih =>
      simp only [dropToEnd]
      split
      · simp
      · exact Nat.le_succ_of_le ih

/-- In DISCARDING state the loop produces nothing until after the first
end-marker line, and then continues in KEEPING state. -/
theorem processLines_true_eq (ls : List String) :
    processLines true ls = processLines false (dropToEnd ls) := by
  induction ls with
  | nil => rfl
  | cons l rest ih =>
      simp only [processLines, dropToEnd]
      split
      · rfl
      · exact ih

/-- The scan loop coincides with the spec-side region filter
(unconditionally: an unterminated region is dropped to end of file by
both sides, since `dropToEnd` then returns `[]`). -/
theorem processLines_false_eq_specFilter (n : Nat) :
    ∀ ls : List String, ls.length ≤ n → processLines false ls = specFilter ls := by
  induction n with
  | zero =>
      intro ls h
      have : ls = [] := List.length_eq_zero.mp (Nat.le_zero.mp h)
      subst this
      simp [processLines, specFilter]
  | succ n ih =>
      intro ls h
      cases ls with
      | nil => simp [processLines, specFilter]
      | cons l rest =>
          simp only [processLines, specFilter]
          split
          · rw [processLines_true_eq]
            have hlen : (dropToEnd rest).length ≤ n := by
              have := dropToEnd_length_le rest
              simp only [List.length_cons, Nat.succ_le_succ_iff] at h
              omega
            rw [ih _ hlen]
          · have hlen : rest.length ≤ n := by
              simp only [List.length_cons, Nat.succ_le_succ_iff] at h
              omega
            rw [ih _ hlen]

/-- The scan loop splits over list concatenation: the tail is processed
starting from whatever the discard flag is after the front. -/
theorem processLines_append (xs : List String) :
    ∀ (b : Bool) (ys : List String),
      processLines b (xs ++ ys) =
        processLines b xs ++ processLines (stateAfter b xs) ys := by
  induction xs with
  | nil =>
      intro b ys
      cases b <;> rfl
  | cons l rest ih =>
      intro b ys
      cases b with
      | true =>
          simp only [List.cons_append, processLines, stateAfter]
          split <;> exact ih _ _
      | false =>
          simp only [List.cons_append, processLines, stateAfter]
          split <;> simp [ih]

/-- The discard flag evolves over list concatenation by composition. -/
theorem stateAfter_append (xs : List String) :
    ∀ (b : Bool) (ys : List String),
      stateAfter b (xs ++ ys) = stateAfter (stateAfter b xs) ys := by
  induction xs with
  | nil =>
      intro b ys
      cases b <;> rfl
  | cons l rest ih =>
      intro b ys
      cases b with
      | true =>
          simp only [List.cons_append, stateAfter]
          split <;> exact ih _ _
      | false =>
          simp only [List.cons_append, stateAfter]
          split <;> exact ih _ _

/-- On lines containing neither marker the loop in KEEPING state keeps
everything. -/
theorem processLines_clean (ls : List String)
    (h : ∀ l ∈ ls, startIn l = false ∧ endIn l = false) :
    processLines false ls = ls := by
  induction ls with
  | nil => rfl
  | cons l rest ih =>
      have hl := h l (List.mem_cons_self l rest)
      have ht := ih fun x hx => h x (List.mem_cons_of_mem l hx)
      simp [processLines, hl.1, ht]

/-- With no end-marker line in sight, DISCARDING drops everything to end
of file. -/
theorem processLines_true_nil (ls : List String)
    (h : ∀ l ∈ ls, endIn l = false) :
    processLines true ls = [] := by
  induction ls with
  | nil => rfl
  | cons l rest ih =>
      have hl := h l (List.mem_cons_self l rest)
      have ht := ih fun x hx => h x (List.mem_cons_of_mem l hx)
      simp [processLines, hl, ht]

/-- The scan classifies every line exactly once: one flag per input line. -/
theorem classify_length (ls : List String) :
    ∀ b : Bool, (classify b ls).length = ls.length := by
  induction ls with
  | nil => intro b; cases b <;> rfl
  | cons l rest ih =>
      intro b
      cases b with
      | true =>
          simp only [classify, List.length_cons]
          split <;> simp [ih]
      | false =>
          simp only [classify, List.length_cons]
          split <;> simp [ih]

/-- The kept lines are exactly the lines whose classification flag is
`true`, in order. -/
theorem processLines_eq_selectBy (ls : List String) :
    ∀ b : Bool, processLines b ls = selectBy ls (classify b ls) := by
  induction ls with
  | nil => intro b; cases b <;> rfl
  | cons l rest ih =>
      intro b
      cases b with
      | true =>
          simp only [processLines, classify]
          split <;> simp [selectBy, ih]
      | false =>
          simp only [processLines, classify]
          split <;> simp [selectBy, ih]

/-- The kept lines form an order-preserving subsequence of the input. -/
theorem processLines_sublist (ls : List String) :
    ∀ b : Bool, List.Sublist (processLines b ls) ls := by
  induction ls with
  | nil => intro b; cases b <;> exact List.Sublist.refl []
  | cons l rest ih =>
      intro b
      cases b with
      | true =>
          simp only [processLines]
          split
          · exact List.Sublist.cons l (ih false)
          · exact List.Sublist.cons l (ih true)
      | false =>
          simp only [processLines]
          split
          · exact List.Sublist.cons₂ l (ih true)
          · exact List.Sublist.cons₂ l (ih false)

/- ------------------------------------------------------------------ -/
/- Claims.                                                             -/
/- ------------------------------------------------------------------ -/

/-- C1 (counterexample): the claim as stated says that every line
containing the start-marker substring is retained in the output of every
well-formed file.  The file `nestedLines` is well-formed (each of its
start-marker lines is followed by an end-marker line), its second line
contains the start marker, yet that line is dropped by `filter` because
it sits inside the discarded region opened by the first line. -/
theorem nested_start_not_retained :
    wellFormedB nestedLines = true ∧
    startIn "// CODELAB: b\n" = true ∧
    "// CODELAB: b\n" ∈ nestedLines ∧
    "// CODELAB: b\n" ∉ filter nestedLines := by decide

/-- C1 (amended): for every well-formed input, the output of `filter`
equals the spec-described result `specFilter`: every original line is
kept except the lines strictly between each region-opening start-marker
line and its matching end-marker line (the first subsequent end-marker
line) and except that end-marker line itself; each region-opening
start-marker line is retained (it heads its region in `specFilter`). -/
theorem filter_eq_specFilter_of_wellFormed (ls : List String)
    (h : wellFormedB ls = true) : filter ls = specFilter ls :=
  processLines_false_eq_specFilter ls.length ls (Nat.le_refl _)

/-- Witness for C1: the amended theorem applied to the spec's five-line
example, which is well-formed. -/
theorem filter_eq_specFilter_of_wellFormed_witness :
    wellFormedB exampleLines = true ∧ filter exampleLines = specFilter exampleLines :=
  ⟨by decide, filter_eq_specFilter_of_wellFormed exampleLines (by decide)⟩

/-- C2: on the spec's five-line example, `filter` keeps `A`, the
start-marker line and `C`, and drops the `secret` line and the end-marker
line. -/
theorem filter_example :
    filter exampleLines = ["A\n", "// CODELAB: B\n", "C\n"] := by decide

/-- C3: on a file none of whose lines contains the start marker and none
of whose lines contains the end marker, `filter` is the identity. -/
theorem filter_noop_of_no_markers (ls : List String)
    (h : ∀ l ∈ ls, startIn l = false ∧ endIn l = false) :
    filter ls = ls :=
  processLines_clean ls h

/-- Witness for C3: a two-line marker-free file passes through unchanged. -/
theorem filter_noop_of_no_markers_witness :
    (∀ l ∈ ["A\n", "B\n"], startIn l = false ∧ endIn l = false) ∧
    filter ["A\n", "B\n"] = ["A\n", "B\n"] :=
  ⟨by decide, filter_noop_of_no_markers ["A\n", "B\n"] (by decide)⟩

/-- C4 (counterexample): the claim as stated says no line containing the
end-marker substring ever appears in the output, for every input file.
But an end-marker line met while the scan is still in KEEPING state is
appended unconditionally by the KEEPING branch (the end pattern is only
tested in the DISCARDING branch): on the one-line file consisting of the
end-marker line alone, the output contains that line. -/
theorem end_marker_line_kept_in_keeping_state :
    endIn "// CODELAB SECTION END\n" = true ∧
    filter ["// CODELAB SECTION END\n"] = ["// CODELAB SECTION END\n"] ∧
    "// CODELAB SECTION END\n" ∈ filter ["// CODELAB SECTION END\n"] := by decide

/-- C4 (amended): an end-marker line reached while the scan is in
DISCARDING state is never appended to the output: it is consumed, the
state returns to KEEPING, and the output is the kept lines of the front
followed by the filter of the remainder restarted in KEEPING state. -/
theorem end_marker_consumed_while_discarding
    (pre : List String) (l : String) (post : List String)
    (hpre : stateAfter false pre = true) (hl : endIn l = true) :
    filter (pre ++ l :: post) = filter pre ++ filter post := by
  unfold filter
  rw [processLines_append, hpre]
  simp [processLines, hl]

/-- Witness for C4: a region `start .. end` followed by `C`; the
end-marker line is consumed and `C` survives. -/
theorem end_marker_consumed_while_discarding_witness :
    stateAfter false ["// CODELAB: a\n"] = true ∧
    endIn "// CODELAB SECTION END\n" = true ∧
    filter (["// CODELAB: a\n"] ++ "// CODELAB SECTION END\n" :: ["C\n"]) =
      filter ["// CODELAB: a\n"] ++ filter ["C\n"] :=
  ⟨by decide, by decide,
    end_marker_consumed_while_discarding ["// CODELAB: a\n"]
      "// CODELAB SECTION END\n" ["C\n"] (by decide) (by decide)⟩

/-- C5: when a start-marker line is reached in KEEPING state and no later
line contains the end marker, the file ends still in DISCARDING state:
the start-marker line is retained, every line after it is dropped, and
the function still produces a result (total function — the truncation is
silent, no error path exists). -/
theorem unterminated_region_truncates
    (pre : List String) (l : String) (post : List String)
    (hpre : stateAfter false pre = false) (hl : startIn l = true)
    (hpost : ∀ x ∈ post, endIn x = false) :
    filter (pre ++ l :: post) = filter pre ++ [l] := by
  unfold filter
  rw [processLines_append, hpre]
  simp [processLines, hl, processLines_true_nil post hpost]

/-- Witness for C5: `A`, then an unterminated start-marker line, then two
doomed lines. -/
theorem unterminated_region_truncates_witness :
    stateAfter false ["A\n"] = false ∧
    startIn "// CODELAB: x\n" = true ∧
    (∀ x ∈ ["s1\n", "s2\n"], endIn x = false) ∧
    filter (["A\n"] ++ "// CODELAB: x\n" :: ["s1\n", "s2\n"]) =
      filter ["A\n"] ++ ["// CODELAB: x\n"] :=
  ⟨by decide, by decide, by decide,
    unterminated_region_truncates ["A\n"] "// CODELAB: x\n" ["s1\n", "s2\n"]
      (by decide) (by decide) (by decide)⟩

/-- C6: every input line is classified exactly once (`classify` yields
one keep/discard flag per line), the output is exactly the lines whose
flag is keep, in order, and the output is an order-preserving subsequence
of the input. -/
theorem lines_classified_once_and_order_preserved (ls : List String) :
    (classify false ls).length = ls.length ∧
    filter ls = selectBy ls (classify false ls) ∧
    List.Sublist (filter ls) ls :=
  ⟨classify_length ls false, processLines_eq_selectBy ls false,
    processLines_sublist ls false⟩

/-- C7 (counterexample): the claim as stated says a line containing the
start-marker substring met while DISCARDING never changes the scan state.
`dualMarkerLine` contains the start marker, but it also contains the end
marker, so while DISCARDING it flips the state back to KEEPING (the
DISCARDING branch tests the end pattern), and removing it from the input
changes the output. -/
theorem dual_marker_line_changes_state_while_discarding :
    startIn dualMarkerLine = true ∧
    stateAfter false ["// CODELAB: a\n"] = true ∧
    stateAfter false (["// CODELAB: a\n"] ++ [dualMarkerLine]) = false ∧
    filter (["// CODELAB: a\n"] ++ dualMarkerLine :: ["X\n"]) ≠
      filter (["// CODELAB: a\n"] ++ ["X\n"]) := by decide

/-- C7 (amended): a line containing the start marker but not the end
marker, reached while the scan is in DISCARDING state, has no effect: it
is not appended (deleting it from the input leaves the output unchanged)
and it does not change the scan state. -/
theorem start_marker_while_discarding_no_effect
    (pre : List String) (l : String) (post : List String)
    (hpre : stateAfter false pre = true) (hs : startIn l = true)
    (he : endIn l = false) :
    filter (pre ++ l :: post) = filter (pre ++ post) ∧
    stateAfter false (pre ++ [l]) = stateAfter false pre := by
  refine ⟨?_, ?_⟩
  · unfold filter
    rw [processLines_append, processLines_append, hpre]
    simp [processLines, he]
  · rw [stateAfter_append, hpre]
    simp [stateAfter, he, hpre]

/-- Witness for C7: a nested start-marker line inside a discarded region
is inert. -/
theorem start_marker_while_discarding_no_effect_witness :
    stateAfter false ["// CODELAB: s\n"] = true ∧
    startIn "// CODELAB: t\n" = true ∧
    endIn "// CODELAB: t\n" = false ∧
    filter (["// CODELAB: s\n"] ++ "// CODELAB: t\n" :: ["X\n"]) =
      filter (["// CODELAB: s\n"] ++ ["X\n"]) ∧
    stateAfter false (["// CODELAB: s\n"] ++ ["// CODELAB: t\n"]) =
      stateAfter false ["// CODELAB: s\n"] :=
  ⟨by decide, by decide, by decide,
    (start_marker_while_discarding_no_effect ["// CODELAB: s\n"]
      "// CODELAB: t\n" ["X\n"] (by decide) (by decide) (by decide)).1,
    (start_marker_while_discarding_no_effect ["// CODELAB: s\n"]
      "// CODELAB: t\n" ["X\n"] (by decide) (by decide) (by decide)).2⟩

/-- C8: when the output of `filter` contains no line with either marker
(an already-filtered, clean file), a second application of `filter` is a
no-op. -/
theorem filter_idempotent_on_clean (ls : List String)
    (h : ∀ l ∈ filter ls, startIn l = false ∧ endIn l = false) :
    filter (filter ls) = filter ls :=
  processLines_clean (filter ls) h

/-- Witness for C8: a marker-free one-line file is a fixed point of
`filter`, and filtering it twice changes nothing. -/
theorem filter_idempotent_on_clean_witness :
    (∀ l ∈ filter ["A\n"], startIn l = false ∧ endIn l = false) ∧
    filter (filter ["A\n"]) = filter ["A\n"] :=
  ⟨by decide, filter_idempotent_on_clean ["A\n"] (by decide)⟩

/-- C9: with no path argument (fewer than two argv entries, Python's
`sys.argv[0]` being the program name), the run ends in the usage outcome:
exit status 1 (non-zero), exactly the message
`"Error: Please specify the name of the file to process."` on the
diagnostic stream, and no file read or written (the `usage` outcome
carries no file action). -/
theorem usage_error_on_missing_argument (argv : List String)
    (h : argv.length < 2) :
    run argv =
      RunOutcome.usage "Error: Please specify the name of the file to process." 1 := by
  unfold run
  rw [if_pos h]

/-- Witness for C9: invoked with only the program name. -/
theorem usage_error_on_missing_argument_witness :
    run ["process-codelab-source-file.py"] =
      RunOutcome.usage "Error: Please specify the name of the file to process." 1 :=
  usage_error_on_missing_argument ["process-codelab-source-file.py"] (by decide)

/-- C10: `filter` is not idempotent in general: the spec's five-line
example is well-formed, yet the output of one application still contains
a start-marker line with no matching end-marker line (so the output is no
longer well-formed), and a second application drops every line after that
start-marker line, giving a strictly different result. -/
theorem filter_not_idempotent_in_general :
    wellFormedB exampleLines = true ∧
    (filter exampleLines).any (fun l => startIn l) = true ∧
    wellFormedB (filter exampleLines) = false ∧
    filter (filter exampleLines) = ["A\n", "// CODELAB: B\n"] ∧
    filter (filter exampleLines) ≠ filter exampleLines := by decide

end Codelab
